import Mathlib

/-!
Verification of the path-command subsystem of the empire-wallpaper repository
(`src/lib.rs`): the `Command` / `Commands` types, their parsers
(`Command::from_str` taking a pen position, `Commands::from_str`), the
geometric operations (`bounds`, `normalize`, `translate`) and emission
(`Command::to_str`, `Commands::emit`).

Modelling conventions:
* `f64` values are modelled as exact rationals (`ℚ`).  The decimal literals
  appearing in path text are parsed exactly; `f64::MAX` is modelled by its
  exact value `(2^53 - 1) * 2^971`.
* Rust strings are modelled as `List Char`; `str::trim` and the regex
  separator class `(\s|,)+` are modelled over the ASCII whitespace characters.
* A fallible Rust computation returning `Result` is modelled by `Res`;
  a Rust panic (here: the out-of-bounds slice index in
  `args.chunks(2).map(|x| (x[0], x[1]))` for an odd number of numbers, and the
  `self.args[0]` indexing in `to_str`) is modelled by the distinguished
  outcome `Res.crash`, kept separate from `Res.err` (a returned `Err`).
* `{:0.6}` formatting is modelled by rounding the exact rational to the
  nearest multiple of `10⁻⁶` and printing six fractional digits.
-/

namespace Empire

/-- Outcome of a fallible Rust computation: `Ok`, `Err` with its message, or a
panic (`crash`). -/
inductive Res (α : Type) where
  | ok (a : α)
  | err (e : String)
  | crash
deriving DecidableEq

/-- `true` iff the result is an `Err` (a returned error, not a panic). -/
def Res.isErr {α : Type} : Res α → Bool
  | Res.err _ => true
  | _ => false

/-- `true` iff the result is `Ok`. -/
def Res.isOk {α : Type} : Res α → Bool
  | Res.ok _ => true
  | _ => false

/-- ASCII whitespace, modelling `char::is_whitespace` / the regex class `\s`
on the ASCII inputs the program handles. -/
def isWS (c : Char) : Bool :=
  c == ' ' || c == '\t' || c == '\n' || c == '\r' || c.toNat == 11 || c.toNat == 12

/-- The separator class of the regex `(\s|,)+` used to split numeric fields. -/
def isSep (c : Char) : Bool := isWS c || c == ','

/-- `str::trim` on a list of characters. -/
def trim (s : List Char) : List Char :=
  ((s.dropWhile isWS).reverse.dropWhile isWS).reverse

/-- The accepted command codes, i.e. the character class
`[MmLlHhVvCcSsQqTtAaZz]` of both the per-command parser and the tokenizer. -/
def codeChars : List Char :=
  ['M', 'm', 'L', 'l', 'H', 'h', 'V', 'v', 'C', 'c',
   'S', 's', 'Q', 'q', 'T', 't', 'A', 'a', 'Z', 'z']

mutual

/-- Splitting a string at runs of separators, as `Regex::split` with pattern
`(\s|,)+` does: `cur` is the (reversed) field being accumulated. -/
def splitFieldsAux : List Char → List Char → List (List Char)
  | [], cur => [cur.reverse]
  | c :: rest, cur =>
    if isSep c then cur.reverse :: splitFieldsGap rest
    else splitFieldsAux rest (c :: cur)

/-- State of `splitFieldsAux` inside a separator run. -/
def splitFieldsGap : List Char → List (List Char)
  | [] => [[]]
  | c :: rest => if isSep c then splitFieldsGap rest else splitFieldsAux rest [c]

end

/-- `Regex::split` of the tail of a token at runs of whitespace/commas. -/
def splitFields (s : List Char) : List (List Char) := splitFieldsAux s []

/-- Value of a list of decimal digits. -/
def digitsVal (ds : List Char) : ℕ := ds.foldl (fun n d => n * 10 + (d.toNat - 48)) 0

/-- Optional exponent suffix of a float literal: empty means a factor of `1`;
`e`/`E` followed by an optionally signed nonempty digit string gives the
corresponding power of ten; anything else is a parse failure. -/
def expPart : List Char → Option ℚ
  | [] => some 1
  | c :: rest =>
    if c == 'e' || c == 'E' then
      match rest with
      | '+' :: ds =>
        if ds ≠ [] ∧ ds.all Char.isDigit then some ((10 : ℚ) ^ digitsVal ds) else none
      | '-' :: ds =>
        if ds ≠ [] ∧ ds.all Char.isDigit then some ((10 : ℚ) ^ (-(digitsVal ds : ℤ))) else none
      | ds =>
        if ds ≠ [] ∧ ds.all Char.isDigit then some ((10 : ℚ) ^ digitsVal ds) else none
    else none

/-- Unsigned decimal float: integer digits, optional fraction, optional
exponent; at least one digit of mantissa is required. -/
def parseUnsigned (s : List Char) : Option ℚ :=
  let ip := s.takeWhile Char.isDigit
  let rest := s.dropWhile Char.isDigit
  match rest with
  | '.' :: rest2 =>
    let fp := rest2.takeWhile Char.isDigit
    let rest3 := rest2.dropWhile Char.isDigit
    if ip = [] ∧ fp = [] then none
    else (expPart rest3).map
      (fun e => ((digitsVal ip : ℚ) + (digitsVal fp : ℚ) / (10 : ℚ) ^ fp.length) * e)
  | _ =>
    if ip = [] then none
    else (expPart rest).map (fun e => (digitsVal ip : ℚ) * e)

/-- `str::parse::<f64>` modelled exactly over `ℚ` for finite decimal literals
(the `inf`/`nan` spellings, which denote no rational value, are outside the
model and rejected). -/
def parseFloat (s : List Char) : Option ℚ :=
  match s with
  | '+' :: rest => parseUnsigned rest
  | '-' :: rest => (parseUnsigned rest).map (fun q => -q)
  | _ => parseUnsigned s

/-- Splitting the (trimmed, nonempty) argument tail into parsed numbers:
`pattern.split(s).map(|s| s.parse::<f64>()).collect::<Result<Vec<_>,_>>()`. -/
def numsOf (t : List Char) : Option (List ℚ) := (splitFields t).mapM parseFloat

/-- `args.chunks(2).map(|x| (x[0], x[1]))`: pairs numbers two at a time;
an odd count makes `x[1]` an out-of-bounds index, i.e. a panic (`none`). -/
def pairsOf : List ℚ → Option (List (ℚ × ℚ))
  | [] => some []
  | [_] => none
  | x :: y :: rest => (pairsOf rest).map (fun ps => (x, y) :: ps)

/-- One parsed drawing command: the command-code character and its coordinate
pairs, exactly the fields of the Rust `Command` struct. -/
structure Command where
  cmd : Char
  args : List (ℚ × ℚ)
deriving DecidableEq

/-- The part of `Command::from_str(s, pt)` after the code character has been
accepted: `t` is the trimmed tail.  Empty tail yields a zero-argument
command; otherwise the numbers are parsed, and `H`/`V` substitute the pen
coordinate while every other code pair-groups the numbers. -/
def parseTail (c : Char) (t : List Char) (pt : ℚ × ℚ) : Res Command :=
  if t = [] then Res.ok ⟨c, []⟩
  else
    match numsOf t with
    | none => Res.err "invalid float literal"
    | some nums =>
      if c = 'H' then
        match nums with
        | [] => Res.crash
        | x :: _ => Res.ok ⟨'L', [(x, pt.2)]⟩
      else if c = 'V' then
        match nums with
        | [] => Res.crash
        | y :: _ => Res.ok ⟨'L', [(pt.1, y)]⟩
      else
        match pairsOf nums with
        | none => Res.crash
        | some ps => Res.ok ⟨c, ps⟩

/-- The pen-aware `Command::from_str(s: &str, pt: (f64, f64))` of the source. -/
def Command.fromStr (s : List Char) (pt : ℚ × ℚ) : Res Command :=
  match s with
  | [] => Res.err "empty command"
  | c :: rest =>
    if c ∈ codeChars then parseTail c (trim rest) pt
    else Res.err "invalid command"

/-- `Command::context`: `*self.args.last().unwrap_or(&(0.0, 0.0))`. -/
def Command.context (c : Command) : ℚ × ℚ := c.args.getLast?.getD (0, 0)

/-- `Command::translate`: shift every coordinate pair by `(tx, ty)`. -/
def Command.translate (c : Command) (tx ty : ℚ) : Command :=
  ⟨c.cmd, c.args.map (fun a => (a.1 + tx, a.2 + ty))⟩

/-- Zero-padded six-digit decimal string. -/
def pad6 (n : ℕ) : String :=
  let s := toString n
  String.mk (List.replicate (6 - s.length) '0') ++ s

/-- `format!("{:0.6}", q)`: sign, integer part and exactly six fractional
digits of the nearest multiple of `10⁻⁶`. -/
def fmt6 (q : ℚ) : String :=
  let n := (round (|q| * 1000000)).toNat
  (if q < 0 then "-" else "") ++ toString (n / 1000000) ++ "." ++ pad6 (n % 1000000)

/-- The rational value denoted by the string `fmt6 q`. -/
def fmt6val (q : ℚ) : ℚ :=
  (if q < 0 then (-1 : ℚ) else 1) * ((round (|q| * 1000000) : ℤ) : ℚ) / 1000000

/-- `Command::to_str(pt)`: the drawing-instruction line and the new pen
position.  `none` models the panic of `self.args[...]` when the argument list
is too short for the matched code. -/
def Command.toStr (c : Command) (pt : ℚ × ℚ) : Option (String × (ℚ × ℚ)) :=
  if c.cmd = 'M' then
    match c.args with
    | [] => none
    | a :: _ => some ("ctx.move_to(" ++ fmt6 a.1 ++ ", " ++ fmt6 a.2 ++ ");", (a.1, a.2))
  else if c.cmd = 'C' then
    match c.args with
    | a :: b :: d :: _ =>
      some ("ctx.curve_to(" ++ fmt6 a.1 ++ ", " ++ fmt6 a.2 ++ ", " ++ fmt6 b.1 ++ ", "
        ++ fmt6 b.2 ++ ", " ++ fmt6 d.1 ++ ", " ++ fmt6 d.2 ++ ");", (d.1, d.2))
    | _ => none
  else if c.cmd = 'L' then
    match c.args with
    | [] => none
    | a :: _ => some ("ctx.line_to(" ++ fmt6 a.1 ++ ", " ++ fmt6 a.2 ++ ");", (a.1, a.2))
  else if c.cmd = 'H' then
    match c.args with
    | [] => none
    | a :: _ => some ("ctx.line_to(" ++ fmt6 a.1 ++ ", " ++ fmt6 pt.2 ++ ");", (a.1, pt.2))
  else if c.cmd = 'V' then
    match c.args with
    | [] => none
    | a :: _ => some ("ctx.line_to(" ++ fmt6 pt.1 ++ ", " ++ fmt6 a.2 ++ ");", (pt.1, a.2))
  else if c.cmd = 'z' ∨ c.cmd = 'Z' then
    some ("ctx.close_path();", (0, 0))
  else
    some ("// TODO: immplement " ++ String.singleton c.cmd, (0, 0))

/-- The parsed command sequence (`Commands` struct of the source). -/
structure Commands where
  cmds : List Command
deriving DecidableEq

/-- `f64::MAX` exactly: `(2^53 - 1) * 2^971` written out as a literal
(see `fMAX_eq`); `f64::MIN` is its negation. -/
def fMAX : ℚ := 179769313486231570814527423731704356798070567525844996598917476803157260780028538760589558632766878171540458953514382464234321326889464182768467546703537516986049910576551282076245490090389328944075868508455133942304583236903222948165808559332123348274797826204144723168738177180919299881250404026184124858368

/-- The literal in `fMAX` is exactly `(2^53 - 1) * 2^971 = f64::MAX`. -/
theorem fMAX_eq : fMAX = (2 ^ 53 - 1) * 2 ^ 971 := by norm_num [fMAX]

/-- One step of the bounds scan: componentwise min into the top-left,
componentwise max into the bottom-right. -/
def bstep (st : (ℚ × ℚ) × (ℚ × ℚ)) (a : ℚ × ℚ) : (ℚ × ℚ) × (ℚ × ℚ) :=
  ((min st.1.1 a.1, min st.1.2 a.2), (max st.2.1 a.1, max st.2.2 a.2))

/-- `Commands::bounds`: fold over every coordinate of every command starting
from the sentinel rectangle `(MAX, MAX)`–`(MIN, MIN)`. -/
def Commands.bounds (cs : Commands) : (ℚ × ℚ) × (ℚ × ℚ) :=
  cs.cmds.foldl (fun st c => c.args.foldl bstep st) ((fMAX, fMAX), (-fMAX, -fMAX))

/-- `Commands::normalize`: translate every command so the bounds are centred
on the origin. -/
def Commands.normalize (cs : Commands) : Commands :=
  let b := cs.bounds
  let tx := -b.1.1 - (b.2.1 - b.1.1) / 2
  let ty := -b.1.2 - (b.2.2 - b.1.2) / 2
  ⟨cs.cmds.map (fun c => c.translate tx ty)⟩

/-- The lines printed by `Commands::emit`, threading the pen from `(0,0)`;
`none` models a panic inside `to_str`. -/
def emitList : List Command → ℚ × ℚ → Option (List String)
  | [], _ => some []
  | c :: rest, pt =>
    match c.toStr pt with
    | none => none
    | some (s, p2) => (emitList rest p2).map (fun l => s :: l)

/-- `Commands::emit`. -/
def Commands.emit (cs : Commands) : Option (List String) := emitList cs.cmds (0, 0)

mutual

/-- Tokenizer state inside a token: `cur` is the token accumulated so far in
reverse order (its head group started at a code character); reaching the next
code character ends the token, exactly as the regex match
`[MmLlHhVvCcSsQqTtAaZz][^MmLlHhVvCcSsQqTtAaZz]*` does. -/
def tokenizeTok : List Char → List Char → List (List Char)
  | [], cur => [cur.reverse]
  | c :: rest, cur =>
    if c ∈ codeChars then cur.reverse :: tokenizeTok rest [c]
    else tokenizeTok rest (c :: cur)

/-- Tokenizer state before the first code character: such characters are not
part of any match of the token pattern and are skipped. -/
def tokenizeSkip : List Char → List (List Char)
  | [] => []
  | c :: rest => if c ∈ codeChars then tokenizeTok rest [c] else tokenizeSkip rest

end

/-- The tokenizer of `Commands::from_str`: `find_iter` with the pattern
`[MmLlHhVvCcSsQqTtAaZz][^MmLlHhVvCcSsQqTtAaZz]*` — every match starts at a
code character and extends over the following non-code characters; text
before the first code character is skipped. -/
def tokenize (s : List Char) : List (List Char) := tokenizeSkip s

/-- The loop body of `Commands::from_str`: parse each token in order,
threading the pen via `context`; the first non-`Ok` outcome aborts. -/
def runTokens : List (List Char) → ℚ × ℚ → Res (List Command)
  | [], _ => Res.ok []
  | t :: ts, pt =>
    match Command.fromStr t pt with
    | Res.ok c =>
      match runTokens ts c.context with
      | Res.ok cs => Res.ok (c :: cs)
      | Res.err e => Res.err e
      | Res.crash => Res.crash
    | Res.err e => Res.err e
    | Res.crash => Res.crash

/-- `Commands::from_str`. -/
def Commands.fromStr (s : List Char) : Res Commands :=
  match runTokens (tokenize s) (0, 0) with
  | Res.ok cs => Res.ok ⟨cs⟩
  | Res.err e => Res.err e
  | Res.crash => Res.crash


/-- The empty tail never yields a number list: splitting produces one empty
field and the empty field is not a float literal. -/
theorem numsOf_nil : numsOf [] = none := by decide

/-- Claim C1: the spec asserts that a pair-grouped command token with an odd
number of numeric values fails with an ArityMismatch decode error and never
panics, `args.len()` always matching the arity of the kind.  The code
instead panics (out-of-bounds index in the `chunks(2)` pairing) on the odd
count, and silently accepts an even count that does not match the kind's
arity: `"C 1,2 3,4 5"` crashes both at the command and the sequence level,
while `"C 1,2 3,4"` is accepted with two pairs although `C` requires three. -/
theorem c1_crash_on_odd_args :
    Command.fromStr "C 1,2 3,4 5".data (0, 0) = Res.crash ∧
    (Command.fromStr "C 1,2 3,4 5".data (0, 0)).isErr = false ∧
    Commands.fromStr "C 1,2 3,4 5".data = Res.crash ∧
    Command.fromStr "C 1,2 3,4".data (0, 0) = Res.ok ⟨'C', [(1, 2), (3, 4)]⟩ ∧
    [((1 : ℚ), (2 : ℚ)), (3, 4)].length ≠ 3 := by
  with_unfolding_all decide

/-- Claim C2, counterexample: a lowercase `'h'` token with one numeric value
is not special-cased by the parser; it falls into the pair-grouping branch
and panics on the odd count instead of producing the LineTo `(50, 20)` the
claim promises for pen `(10, 20)`. -/
theorem c2_counterexample :
    Command.fromStr "h 50".data (10, 20) = Res.crash ∧
    Command.fromStr "h 50".data (10, 20) ≠ Res.ok ⟨'L', [(50, 20)]⟩ := by decide

/-- Claim C2 (amended to uppercase codes): an uppercase `'H'` token whose
tail parses to the single number `x`, parsed with pen `(px, py)`, yields
LineTo `(x, py)`; an uppercase `'V'` token symmetrically yields
LineTo `(px, x)`. -/
theorem c2_upperHV (tail : List Char) (px py x : ℚ)
    (h : numsOf (trim tail) = some [x]) :
    Command.fromStr ('H' :: tail) (px, py) = Res.ok ⟨'L', [(x, py)]⟩ ∧
    Command.fromStr ('V' :: tail) (px, py) = Res.ok ⟨'L', [(px, x)]⟩ := by
  have hne : trim tail ≠ [] := by
    intro h0
    rw [h0, numsOf_nil] at h
    exact Option.noConfusion h
  constructor
  · simp only [Command.fromStr]
    rw [if_pos (by decide : ('H' : Char) ∈ codeChars)]
    simp only [parseTail]
    rw [if_neg hne, h]
    simp
  · simp only [Command.fromStr]
    rw [if_pos (by decide : ('V' : Char) ∈ codeChars)]
    simp only [parseTail]
    rw [if_neg hne, h]
    simp [(show ¬ ('V' : Char) = 'H' by decide)]

/-- Claim C2 witness: `"H 50"` with pen `(10, 20)` resolves to a line to
`(50, 20)`. -/
theorem c2_witness :
    Command.fromStr ('H' :: " 50".data) (10, 20) = Res.ok ⟨'L', [(50, 20)]⟩ :=
  (c2_upperHV " 50".data 10 20 50 (by with_unfolding_all decide)).1

/-- Claim C7, counterexample: a bare `"M"` token (empty argument tail)
parses successfully to a zero-argument command although its code is neither
`Z` nor `z`, contradicting the claimed "succeeds only for Z/z". -/
theorem c7_counterexample :
    Command.fromStr "M".data (0, 0) = Res.ok ⟨'M', []⟩ ∧ 'M' ≠ 'Z' ∧ 'M' ≠ 'z' := by decide

/-- Claim C7 (amended): a token whose tail trims to nothing parses to a
zero-argument command for EVERY accepted code, not only `Z`/`z`; the failure
cases of the leading character are an unaccepted code ("invalid command")
and the empty token ("empty command"). -/
theorem c7_empty_tail (c : Char) (tail : List Char) (pt : ℚ × ℚ) (h : trim tail = []) :
    (c ∈ codeChars → Command.fromStr (c :: tail) pt = Res.ok ⟨c, []⟩) ∧
    (¬ c ∈ codeChars → Command.fromStr (c :: tail) pt = Res.err "invalid command") ∧
    Command.fromStr [] pt = Res.err "empty command" := by
  refine ⟨fun hc => ?_, fun hc => ?_, rfl⟩
  · simp only [Command.fromStr]
    rw [if_pos hc, h]
    rfl
  · simp only [Command.fromStr]
    rw [if_neg hc]

/-- Claim C7 witness: `"L  "` (whitespace tail) parses to a zero-argument
command. -/
theorem c7_witness :
    Command.fromStr ('L' :: "  ".data) (5, 6) = Res.ok ⟨'L', []⟩ :=
  (c7_empty_tail 'L' "  ".data (5, 6) (by decide)).1 (by decide)

/-- Claim C10: characters preceding the first command-code character are
ignored by tokenization, and an input with no command-code character at all
parses successfully to the empty command sequence. -/
theorem c10_ignores_noncode (junk s : List Char) (h : ∀ c ∈ junk, ¬ c ∈ codeChars) :
    tokenize (junk ++ s) = tokenize s ∧ Commands.fromStr junk = Res.ok ⟨[]⟩ := by
  have htok : ∀ t : List Char, (∀ c ∈ t, ¬ c ∈ codeChars) →
      ∀ u, tokenizeSkip (t ++ u) = tokenizeSkip u := by
    intro t
    induction t with
    | nil => intro _ u; rfl
    | cons c rest ih =>
      intro ht u
      have hc := ht c (List.mem_cons_self c rest)
      simp only [List.cons_append, tokenizeSkip]
      rw [if_neg hc]
      exact ih (fun d hd => ht d (List.mem_cons_of_mem c hd)) u
  refine ⟨htok junk h s, ?_⟩
  have h0 : tokenize junk = [] := by
    have h1 := htok junk h []
    simpa [tokenize] using h1
  simp [Commands.fromStr, h0, runTokens]

/-- Claim C10 witness: leading non-code text is skipped. -/
theorem c10_witness :
    tokenize (" 123 *xy ".data ++ "M 1,2".data) = tokenize "M 1,2".data :=
  (c10_ignores_noncode " 123 *xy ".data "M 1,2".data (by decide)).1

/-- All coordinate arguments of all commands, in drawing order. -/
def allCoords (cs : Commands) : List (ℚ × ℚ) := cs.cmds.flatMap Command.args

/-- Minimum of a list, `0` for the empty list. -/
def listMin : List ℚ → ℚ
  | [] => 0
  | x :: xs => xs.foldl min x

/-- Maximum of a list, `0` for the empty list. -/
def listMax : List ℚ → ℚ
  | [] => 0
  | x :: xs => xs.foldl max x

/-- Smallest x-coordinate appearing in the sequence. -/
def minX (cs : Commands) : ℚ := listMin ((allCoords cs).map Prod.fst)

/-- Smallest y-coordinate appearing in the sequence. -/
def minY (cs : Commands) : ℚ := listMin ((allCoords cs).map Prod.snd)

/-- Largest x-coordinate appearing in the sequence. -/
def maxX (cs : Commands) : ℚ := listMax ((allCoords cs).map Prod.fst)

/-- Largest y-coordinate appearing in the sequence. -/
def maxY (cs : Commands) : ℚ := listMax ((allCoords cs).map Prod.snd)

theorem foldl_min_le_init (l : List ℚ) : ∀ a : ℚ, l.foldl min a ≤ a := by
  induction l with
  | nil => intro a; exact le_refl a
  | cons x xs ih => intro a; exact le_trans (ih (min a x)) (min_le_left a x)

theorem foldl_min_le_mem (l : List ℚ) : ∀ (a x : ℚ), x ∈ l → l.foldl min a ≤ x := by
  induction l with
  | nil => intro a x hx; cases hx
  | cons y ys ih =>
    intro a x hx
    rcases List.mem_cons.mp hx with h | h
    · subst h
      exact le_trans (foldl_min_le_init ys (min a x)) (min_le_right a x)
    · exact ih (min a y) x h

theorem foldl_min_mem_or (l : List ℚ) : ∀ a : ℚ, l.foldl min a = a ∨ l.foldl min a ∈ l := by
  induction l with
  | nil => intro a; exact Or.inl rfl
  | cons x xs ih =>
    intro a
    rcases ih (min a x) with h | h
    · rcases le_total a x with hax | hxa
      · exact Or.inl (by rw [List.foldl_cons, h, min_eq_left hax])
      · refine Or.inr ?_
        rw [List.foldl_cons, h, min_eq_right hxa]
        exact List.mem_cons_self x xs
    · exact Or.inr (List.mem_cons_of_mem x h)

theorem foldl_max_ge_init (l : List ℚ) : ∀ a : ℚ, a ≤ l.foldl max a := by
  induction l with
  | nil => intro a; exact le_refl a
  | cons x xs ih => intro a; exact le_trans (le_max_left a x) (ih (max a x))

theorem foldl_max_ge_mem (l : List ℚ) : ∀ (a x : ℚ), x ∈ l → x ≤ l.foldl max a := by
  induction l with
  | nil => intro a x hx; cases hx
  | cons y ys ih =>
    intro a x hx
    rcases List.mem_cons.mp hx with h | h
    · subst h
      exact le_trans (le_max_right a x) (foldl_max_ge_init ys (max a x))
    · exact ih (max a y) x h

theorem foldl_max_mem_or (l : List ℚ) : ∀ a : ℚ, l.foldl max a = a ∨ l.foldl max a ∈ l := by
  induction l with
  | nil => intro a; exact Or.inl rfl
  | cons x xs ih =>
    intro a
    rcases ih (max a x) with h | h
    · rcases le_total x a with hxa | hax
      · exact Or.inl (by rw [List.foldl_cons, h, max_eq_left hxa])
      · refine Or.inr ?_
        rw [List.foldl_cons, h, max_eq_right hax]
        exact List.mem_cons_self x xs
    · exact Or.inr (List.mem_cons_of_mem x h)

/-- Folding `min` over a nonempty list whose head is dominated by the initial
accumulator computes the plain list minimum. -/
theorem foldl_min_dominated (x : ℚ) (xs : List ℚ) (a : ℚ) (h : x ≤ a) :
    (x :: xs).foldl min a = listMin (x :: xs) := by
  rw [List.foldl_cons, min_eq_right h]
  rfl

/-- Folding `max` over a nonempty list whose head dominates the initial
accumulator computes the plain list maximum. -/
theorem foldl_max_dominated (x : ℚ) (xs : List ℚ) (a : ℚ) (h : a ≤ x) :
    (x :: xs).foldl max a = listMax (x :: xs) := by
  rw [List.foldl_cons, max_eq_right h]
  rfl

theorem listMin_le_all (l : List ℚ) : ∀ x ∈ l, listMin l ≤ x := by
  cases l with
  | nil => intro x hx; cases hx
  | cons y ys =>
    intro x hx
    simp only [listMin]
    rcases List.mem_cons.mp hx with h | h
    · subst h; exact foldl_min_le_init ys x
    · exact foldl_min_le_mem ys y x h

theorem listMin_is_mem (l : List ℚ) (hl : l ≠ []) : listMin l ∈ l := by
  cases l with
  | nil => exact absurd rfl hl
  | cons y ys =>
    simp only [listMin]
    rcases foldl_min_mem_or ys y with h | h
    · rw [h]; exact List.mem_cons_self y ys
    · exact List.mem_cons_of_mem y h

theorem listMax_ge_all (l : List ℚ) : ∀ x ∈ l, x ≤ listMax l := by
  cases l with
  | nil => intro x hx; cases hx
  | cons y ys =>
    intro x hx
    simp only [listMax]
    rcases List.mem_cons.mp hx with h | h
    · subst h; exact foldl_max_ge_init ys x
    · exact foldl_max_ge_mem ys y x h

theorem listMax_is_mem (l : List ℚ) (hl : l ≠ []) : listMax l ∈ l := by
  cases l with
  | nil => exact absurd rfl hl
  | cons y ys =>
    simp only [listMax]
    rcases foldl_max_mem_or ys y with h | h
    · rw [h]; exact List.mem_cons_self y ys
    · exact List.mem_cons_of_mem y h

/-- The nested per-command fold of `bounds` equals the fold over the
flattened coordinate list. -/
theorem foldl_args_bind (cmds : List Command) : ∀ st,
    cmds.foldl (fun st c => c.args.foldl bstep st) st =
      (cmds.flatMap Command.args).foldl bstep st := by
  induction cmds with
  | nil => intro st; rfl
  | cons c rest ih =>
    intro st
    rw [List.foldl_cons, List.flatMap_cons, List.foldl_append]
    exact ih _

/-- The `bstep` fold computes the four componentwise `min`/`max` folds. -/
theorem foldl_bstep_proj (l : List (ℚ × ℚ)) : ∀ st : (ℚ × ℚ) × (ℚ × ℚ),
    l.foldl bstep st =
      (((l.map Prod.fst).foldl min st.1.1, (l.map Prod.snd).foldl min st.1.2),
       ((l.map Prod.fst).foldl max st.2.1, (l.map Prod.snd).foldl max st.2.2)) := by
  induction l with
  | nil => intro st; rfl
  | cons a rest ih =>
    intro st
    rw [List.foldl_cons, ih (bstep st a)]
    rfl

/-- For a sequence with at least one coordinate, all of whose coordinates lie
in the representable `f64` range, `bounds` returns exactly the componentwise
minima and maxima (the sentinels are absorbed). -/
theorem bounds_spec (cs : Commands) (h1 : allCoords cs ≠ [])
    (h2 : ∀ a ∈ allCoords cs, -fMAX ≤ a.1 ∧ a.1 ≤ fMAX ∧ -fMAX ≤ a.2 ∧ a.2 ≤ fMAX) :
    cs.bounds = ((minX cs, minY cs), (maxX cs, maxY cs)) := by
  obtain ⟨a0, rest, hsplit⟩ := List.exists_cons_of_ne_nil h1
  obtain ⟨hx1, hx2, hy1, hy2⟩ := h2 a0 (by rw [hsplit]; exact List.mem_cons_self _ _)
  have hb : cs.bounds = (allCoords cs).foldl bstep ((fMAX, fMAX), (-fMAX, -fMAX)) :=
    foldl_args_bind cs.cmds _
  rw [hb, foldl_bstep_proj]
  unfold minX minY maxX maxY
  rw [hsplit]
  dsimp only [List.map_cons]
  rw [foldl_min_dominated _ _ _ hx2, foldl_min_dominated _ _ _ hy2,
    foldl_max_dominated _ _ _ hx1, foldl_max_dominated _ _ _ hy1]

/-- Claim C4: for a sequence containing at least one coordinate argument
(all coordinates within the `f64` range), every coordinate lies inside the
rectangle returned by `bounds`, and each of the four extremes is achieved by
some coordinate argument: the rectangle is the tightest enclosing box. -/
theorem c4_bounds_tight (cs : Commands) (h1 : allCoords cs ≠ [])
    (h2 : ∀ a ∈ allCoords cs, -fMAX ≤ a.1 ∧ a.1 ≤ fMAX ∧ -fMAX ≤ a.2 ∧ a.2 ≤ fMAX) :
    (∀ a ∈ allCoords cs,
      cs.bounds.1.1 ≤ a.1 ∧ a.1 ≤ cs.bounds.2.1 ∧
      cs.bounds.1.2 ≤ a.2 ∧ a.2 ≤ cs.bounds.2.2) ∧
    (∃ a ∈ allCoords cs, a.1 = cs.bounds.1.1) ∧
    (∃ a ∈ allCoords cs, a.2 = cs.bounds.1.2) ∧
    (∃ a ∈ allCoords cs, a.1 = cs.bounds.2.1) ∧
    (∃ a ∈ allCoords cs, a.2 = cs.bounds.2.2) := by
  rw [bounds_spec cs h1 h2]
  have hmapx : (allCoords cs).map Prod.fst ≠ [] := by
    intro h
    exact h1 (List.map_eq_nil_iff.mp h)
  have hmapy : (allCoords cs).map Prod.snd ≠ [] := by
    intro h
    exact h1 (List.map_eq_nil_iff.mp h)
  refine ⟨?_, ?_, ?_, ?_, ?_⟩
  · intro a ha
    exact ⟨listMin_le_all _ a.1 (List.mem_map_of_mem Prod.fst ha),
      listMax_ge_all _ a.1 (List.mem_map_of_mem Prod.fst ha),
      listMin_le_all _ a.2 (List.mem_map_of_mem Prod.snd ha),
      listMax_ge_all _ a.2 (List.mem_map_of_mem Prod.snd ha)⟩
  · obtain ⟨a, ha, he⟩ := List.mem_map.mp (listMin_is_mem _ hmapx)
    exact ⟨a, ha, he⟩
  · obtain ⟨a, ha, he⟩ := List.mem_map.mp (listMin_is_mem _ hmapy)
    exact ⟨a, ha, he⟩
  · obtain ⟨a, ha, he⟩ := List.mem_map.mp (listMax_is_mem _ hmapx)
    exact ⟨a, ha, he⟩
  · obtain ⟨a, ha, he⟩ := List.mem_map.mp (listMax_is_mem _ hmapy)
    exact ⟨a, ha, he⟩

/-- Claim C4 witness: for the sequence `[M (0,0), L (10,10)]` the coordinate
`(10,10)` lies inside the computed bounds. -/
theorem c4_witness :
    (Commands.bounds ⟨[⟨'M', [(0, 0)]⟩, ⟨'L', [(10, 10)]⟩]⟩).1.1 ≤ 10 ∧
    (10 : ℚ) ≤ (Commands.bounds ⟨[⟨'M', [(0, 0)]⟩, ⟨'L', [(10, 10)]⟩]⟩).2.1 ∧
    (Commands.bounds ⟨[⟨'M', [(0, 0)]⟩, ⟨'L', [(10, 10)]⟩]⟩).1.2 ≤ 10 ∧
    (10 : ℚ) ≤ (Commands.bounds ⟨[⟨'M', [(0, 0)]⟩, ⟨'L', [(10, 10)]⟩]⟩).2.2 :=
  (c4_bounds_tight ⟨[⟨'M', [(0, 0)]⟩, ⟨'L', [(10, 10)]⟩]⟩ (by decide)
    (by with_unfolding_all decide)).1 (10, 10) (by with_unfolding_all decide)

/-- Claim C3: for a sequence with at least one coordinate (in `f64` range),
`normalize` returns the sequence in which every coordinate `(x, y)` of every
command is replaced by `(x + tx, y + ty)` with
`tx = -min_x - (max_x - min_x)/2` and `ty = -min_y - (max_y - min_y)/2`;
being a pure function of the input, it leaves the source sequence unchanged. -/
theorem c3_normalize_centers (cs : Commands) (h1 : allCoords cs ≠ [])
    (h2 : ∀ a ∈ allCoords cs, -fMAX ≤ a.1 ∧ a.1 ≤ fMAX ∧ -fMAX ≤ a.2 ∧ a.2 ≤ fMAX) :
    cs.normalize = ⟨cs.cmds.map (fun c =>
      ⟨c.cmd, c.args.map (fun a =>
        (a.1 + (-(minX cs) - (maxX cs - minX cs) / 2),
         a.2 + (-(minY cs) - (maxY cs - minY cs) / 2)))⟩)⟩ := by
  unfold Commands.normalize
  rw [bounds_spec cs h1 h2]
  rfl

/-- Claim C3 witness: the sequence `[M (2,4), L (10,8)]` has bounds
`(2,4)`–`(10,8)`, so normalization shifts every coordinate by `(-6, -6)`. -/
theorem c3_witness :
    Commands.normalize ⟨[⟨'M', [(2, 4)]⟩, ⟨'L', [(10, 8)]⟩]⟩ =
      ⟨[⟨'M', [(-4, -2)]⟩, ⟨'L', [(4, 2)]⟩]⟩ := by
  rw [c3_normalize_centers ⟨[⟨'M', [(2, 4)]⟩, ⟨'L', [(10, 8)]⟩]⟩ (by decide)
    (by with_unfolding_all decide)]
  with_unfolding_all decide

/-- Claim C5, counterexample: a command carrying the lowercase MoveTo code
`'m'` (reachable from relative tokens such as `"m 1,2"`) is not emitted as a
move instruction: it falls into the placeholder branch and resets the pen to
the origin instead of moving the pen to its point. -/
theorem c5_counterexample :
    Command.toStr ⟨'m', [(1, 2)]⟩ (0, 0) = some ("// TODO: immplement m", (0, 0)) ∧
    Command.toStr ⟨'m', [(1, 2)]⟩ (0, 0) ≠ some ("ctx.move_to(1.000000, 2.000000);", (1, 2)) := by
  with_unfolding_all decide

/-- Claim C5 (amended): emission walks the sequence in order threading the
pen, producing exactly one instruction per command; the kind table holds with
kinds identified by the exact uppercase code characters `M`, `L`, `H`, `V`,
`C` and by `Z`/`z` for ClosePath, while every other code — the unsupported
`S/s`, `Q/q`, `T/t`, `A/a` and also the lowercase `m`, `l`, `c`, `h`, `v` —
takes the placeholder branch and resets the pen to `(0, 0)`. -/
theorem c5_emission_table :
    (∀ (cs : List Command) (pt : ℚ × ℚ) (out : List String),
      emitList cs pt = some out → out.length = cs.length) ∧
    (∀ (c : Command) (rest : List Command) (pt : ℚ × ℚ) (s : String) (p2 : ℚ × ℚ),
      Command.toStr c pt = some (s, p2) →
      emitList (c :: rest) pt = Option.map (fun l => s :: l) (emitList rest p2)) ∧
    (∀ cs : Commands, cs.emit = emitList cs.cmds (0, 0)) ∧
    (∀ (pt : ℚ × ℚ) (x y : ℚ) (r : List (ℚ × ℚ)),
      Command.toStr ⟨'M', (x, y) :: r⟩ pt =
        some ("ctx.move_to(" ++ fmt6 x ++ ", " ++ fmt6 y ++ ");", (x, y))) ∧
    (∀ (pt : ℚ × ℚ) (x y : ℚ) (r : List (ℚ × ℚ)),
      Command.toStr ⟨'L', (x, y) :: r⟩ pt =
        some ("ctx.line_to(" ++ fmt6 x ++ ", " ++ fmt6 y ++ ");", (x, y))) ∧
    (∀ (pt : ℚ × ℚ) (x y : ℚ) (r : List (ℚ × ℚ)),
      Command.toStr ⟨'H', (x, y) :: r⟩ pt =
        some ("ctx.line_to(" ++ fmt6 x ++ ", " ++ fmt6 pt.2 ++ ");", (x, pt.2))) ∧
    (∀ (pt : ℚ × ℚ) (x y : ℚ) (r : List (ℚ × ℚ)),
      Command.toStr ⟨'V', (x, y) :: r⟩ pt =
        some ("ctx.line_to(" ++ fmt6 pt.1 ++ ", " ++ fmt6 y ++ ");", (pt.1, y))) ∧
    (∀ (pt : ℚ × ℚ) (a b d : ℚ × ℚ) (r : List (ℚ × ℚ)),
      Command.toStr ⟨'C', a :: b :: d :: r⟩ pt =
        some ("ctx.curve_to(" ++ fmt6 a.1 ++ ", " ++ fmt6 a.2 ++ ", " ++ fmt6 b.1 ++ ", "
          ++ fmt6 b.2 ++ ", " ++ fmt6 d.1 ++ ", " ++ fmt6 d.2 ++ ");", (d.1, d.2))) ∧
    (∀ (pt : ℚ × ℚ) (as : List (ℚ × ℚ)),
      Command.toStr ⟨'Z', as⟩ pt = some ("ctx.close_path();", (0, 0))) ∧
    (∀ (pt : ℚ × ℚ) (as : List (ℚ × ℚ)),
      Command.toStr ⟨'z', as⟩ pt = some ("ctx.close_path();", (0, 0))) ∧
    (∀ (k : Char) (as : List (ℚ × ℚ)) (pt : ℚ × ℚ),
      ¬ k ∈ (['M', 'C', 'L', 'H', 'V', 'z', 'Z'] : List Char) →
      Command.toStr ⟨k, as⟩ pt = some ("// TODO: immplement " ++ String.singleton k, (0, 0))) := by
  refine ⟨?_, ?_, fun cs => rfl, fun pt x y r => rfl, fun pt x y r => rfl, fun pt x y r => rfl,
    fun pt x y r => rfl, fun pt a b d r => rfl, fun pt as => rfl, fun pt as => rfl, ?_⟩
  · intro cs
    induction cs with
    | nil =>
      intro pt out h
      simp only [emitList] at h
      injection h with h2
      subst h2
      rfl
    | cons c rest ih =>
      intro pt out h
      simp only [emitList] at h
      split at h
      · exact Option.noConfusion h
      · rename_i s p2 hts
        cases he : emitList rest p2 with
        | none => rw [he] at h; exact Option.noConfusion h
        | some l2 =>
          rw [he] at h
          injection h with h2
          subst h2
          simp [ih p2 l2 he]
  · intro c rest pt s p2 h
    simp only [emitList]
    rw [h]
  · intro k as pt hk
    have h1 : ¬ k = 'M' := fun h => hk (by rw [h]; decide)
    have h2 : ¬ k = 'C' := fun h => hk (by rw [h]; decide)
    have h3 : ¬ k = 'L' := fun h => hk (by rw [h]; decide)
    have h4 : ¬ k = 'H' := fun h => hk (by rw [h]; decide)
    have h5 : ¬ k = 'V' := fun h => hk (by rw [h]; decide)
    have h6 : ¬ (k = 'z' ∨ k = 'Z') := fun h =>
      h.elim (fun hz => hk (by rw [hz]; decide)) (fun hZ => hk (by rw [hZ]; decide))
    simp only [Command.toStr, if_neg h1, if_neg h2, if_neg h3, if_neg h4, if_neg h5, if_neg h6]

/-- Claim C5 witness: an `'S'` command (unsupported kind) emits the
placeholder marker and resets the pen. -/
theorem c5_witness :
    Command.toStr ⟨'S', [(1, 2)]⟩ (0, 0) =
      some ("// TODO: immplement " ++ String.singleton 'S', (0, 0)) :=
  c5_emission_table.2.2.2.2.2.2.2.2.2.2 'S' [(1, 2)] (0, 0) (by decide)

/-- Default command used only to totalize list indexing in statements. -/
def dcmd : Command := ⟨'?', []⟩

/-- Pen position in effect before parsing the token at index `i`:
the initial pen for `i = 0`, otherwise the `context` of command `i - 1`. -/
def penAt (pt : ℚ × ℚ) (cs : List Command) : ℕ → ℚ × ℚ
  | 0 => pt
  | i + 1 => (cs.getD i dcmd).context

/-- Successful sequence parsing parses exactly one command per token, each
under the pen produced by the previous command's `context`. -/
theorem runTokens_ok_spec (ts : List (List Char)) : ∀ (pt : ℚ × ℚ) (cs : List Command),
    runTokens ts pt = Res.ok cs →
    cs.length = ts.length ∧
    ∀ i, i < ts.length →
      Command.fromStr (ts.getD i []) (penAt pt cs i) = Res.ok (cs.getD i dcmd) := by
  induction ts with
  | nil =>
    intro pt cs h
    simp only [runTokens] at h
    injection h with h2
    subst h2
    exact ⟨rfl, fun i hi => absurd hi (by simp)⟩
  | cons t ts ih =>
    intro pt cs h
    simp only [runTokens] at h
    split at h
    · rename_i c hc
      split at h
      · rename_i cs0 hr
        injection h with h2
        subst h2
        obtain ⟨hlen, hidx⟩ := ih c.context cs0 hr
        constructor
        · simp [hlen]
        · intro i hi
          cases i with
          | zero => simpa [penAt, dcmd] using hc
          | succ j =>
            have hj : j < ts.length := by simpa using hi
            have hstep := hidx j hj
            cases j with
            | zero => simpa [penAt] using hstep
            | succ k => simpa [penAt] using hstep
      · exact Res.noConfusion h
      · exact Res.noConfusion h
    · exact Res.noConfusion h
    · exact Res.noConfusion h

/-- `Commands::from_str` unfolded on its token run (definitional). -/
theorem fromStr_eq (s : List Char) :
    Commands.fromStr s =
      match runTokens (tokenize s) (0, 0) with
      | Res.ok cs => Res.ok ⟨cs⟩
      | Res.err e => Res.err e
      | Res.crash => Res.crash := rfl

/-- A successful `Commands::from_str` is a successful token run. -/
theorem fromStr_ok_runTokens (s : List Char) (cs : Commands)
    (h : Commands.fromStr s = Res.ok cs) :
    runTokens (tokenize s) (0, 0) = Res.ok cs.cmds := by
  unfold Commands.fromStr at h
  split at h
  · rename_i cs0 hr
    injection h with h2
    subst h2
    exact hr
  · exact Res.noConfusion h
  · exact Res.noConfusion h

/-- Claim C6, counterexample: after the unsupported token `"Q 1,2 3,4"` the
pen fed into the next token's parse is the command's last argument `(3, 4)`,
not the origin: the following `"H5"` resolves to `(5, 4)` where the claim
predicts `(5, 0)`. -/
theorem c6_counterexample :
    Commands.fromStr "Q 1,2 3,4H5".data =
      Res.ok ⟨[⟨'Q', [(1, 2), (3, 4)]⟩, ⟨'L', [(5, 4)]⟩]⟩ ∧
    Commands.fromStr "Q 1,2 3,4H5".data ≠
      Res.ok ⟨[⟨'Q', [(1, 2), (3, 4)]⟩, ⟨'L', [(5, 0)]⟩]⟩ := by
  with_unfolding_all decide

/-- Claim C6 (amended): tokens are processed left to right; after each
successfully parsed token the pen fed into the next token's parse is the
command's `context` — its last coordinate argument when it has any (this
includes MoveTo/LineTo/CubicCurveTo but also unsupported kinds with parsed
argument pairs), and the origin `(0, 0)` only for commands with no arguments
(such as a bare ClosePath). -/
theorem c6_pen_threading (s : List Char) (cs : Commands)
    (h : Commands.fromStr s = Res.ok cs) :
    (cs.cmds.length = (tokenize s).length ∧
     ∀ i, i < (tokenize s).length →
       Command.fromStr ((tokenize s).getD i []) (penAt (0, 0) cs.cmds i) =
         Res.ok (cs.cmds.getD i dcmd)) ∧
    (∀ (k : Char) (as : List (ℚ × ℚ)) (x y : ℚ),
      Command.context ⟨k, as ++ [(x, y)]⟩ = (x, y)) ∧
    (∀ k : Char, Command.context ⟨k, []⟩ = (0, 0)) := by
  refine ⟨runTokens_ok_spec (tokenize s) (0, 0) cs.cmds (fromStr_ok_runTokens s cs h),
    fun k as x y => ?_, fun k => rfl⟩
  simp [Command.context, List.getLast?_concat]

/-- Claim C6 witness: parsing `"Z"` yields one command, parsed at index 0
under the initial pen. -/
theorem c6_witness :
    Command.fromStr ((tokenize "Z".data).getD 0 []) (penAt (0, 0) [⟨'Z', []⟩] 0) =
      Res.ok ([⟨'Z', []⟩].getD 0 dcmd) :=
  (c6_pen_threading "Z".data ⟨[⟨'Z', []⟩]⟩ (by decide)).1.2 0 (by decide)

/-- Claim C8, counterexample: the relative MoveTo token `"m 3,4"` parses
successfully, but re-emitting the parsed command produces the placeholder
string, which does not reproduce the coordinates at all. -/
theorem c8_counterexample :
    Command.fromStr "m 3,4".data (0, 0) = Res.ok ⟨'m', [(3, 4)]⟩ ∧
    Command.toStr ⟨'m', [(3, 4)]⟩ (0, 0) = some ("// TODO: immplement m", (0, 0)) ∧
    ("// TODO: immplement m" : String) ≠ "ctx.move_to(3.000000, 4.000000);" := by
  with_unfolding_all decide

/-- A pair-grouped token parses to the pairing of its numbers. -/
theorem parse_pairs (c : Char) (tail : List Char) (pt : ℚ × ℚ) (nums : List ℚ)
    (ps : List (ℚ × ℚ)) (hcode : c ∈ codeChars) (hH : ¬ c = 'H') (hV : ¬ c = 'V')
    (h : numsOf (trim tail) = some nums) (hp : pairsOf nums = some ps) :
    Command.fromStr (c :: tail) pt = Res.ok ⟨c, ps⟩ := by
  have hne : trim tail ≠ [] := by
    intro h0
    rw [h0, numsOf_nil] at h
    exact Option.noConfusion h
  simp only [Command.fromStr]
  rw [if_pos hcode]
  simp only [parseTail]
  rw [if_neg hne, h]
  simp [hH, hV, hp]

/-- The value printed by `fmt6`. -/
theorem fmt6val_close (q : ℚ) : |fmt6val q - q| ≤ 1 / 2000000 := by
  have h1000000 : (0 : ℚ) < 1000000 := by norm_num
  unfold fmt6val
  by_cases hq : q < 0
  · rw [if_pos hq, abs_of_neg hq]
    have h2 : |-q * 1000000 - ((round (-q * 1000000) : ℤ) : ℚ)| ≤ 1 / 2 := abs_sub_round _
    have h3 : (-1 : ℚ) * ((round (-q * 1000000) : ℤ) : ℚ) / 1000000 - q =
        (-q * 1000000 - ((round (-q * 1000000) : ℤ) : ℚ)) / 1000000 := by ring
    rw [h3, abs_div, abs_of_pos h1000000]
    calc |-q * 1000000 - ((round (-q * 1000000) : ℤ) : ℚ)| / 1000000
        ≤ (1 / 2) / 1000000 := (div_le_div_iff_of_pos_right h1000000).mpr h2
      _ = 1 / 2000000 := by norm_num
  · rw [if_neg hq, abs_of_nonneg (not_lt.mp hq)]
    have h2 : |q * 1000000 - ((round (q * 1000000) : ℤ) : ℚ)| ≤ 1 / 2 := abs_sub_round _
    have h3 : (1 : ℚ) * ((round (q * 1000000) : ℤ) : ℚ) / 1000000 - q =
        -((q * 1000000 - ((round (q * 1000000) : ℤ) : ℚ)) / 1000000) := by ring
    rw [h3, abs_neg, abs_div, abs_of_pos h1000000]
    calc |q * 1000000 - ((round (q * 1000000) : ℤ) : ℚ)| / 1000000
        ≤ (1 / 2) / 1000000 := (div_le_div_iff_of_pos_right h1000000).mpr h2
      _ = 1 / 2000000 := by norm_num

/-- Claim C8 (amended to the uppercase codes): parsing an uppercase
MoveTo/LineTo/CubicCurveTo token and re-emitting the parsed command
reproduces exactly the parsed coordinates, each printed through the
six-decimal-place formatter, whose printed value differs from the coordinate
by at most half of `10⁻⁶` — i.e. the coordinates are reproduced to six
decimal places.  (For the lowercase variants the round trip fails: see the
counterexample.) -/
theorem c8_roundtrip :
    (∀ (tail : List Char) (pt : ℚ × ℚ) (x y : ℚ),
      numsOf (trim tail) = some [x, y] →
      Command.fromStr ('M' :: tail) pt = Res.ok ⟨'M', [(x, y)]⟩ ∧
      Command.toStr ⟨'M', [(x, y)]⟩ pt =
        some ("ctx.move_to(" ++ fmt6 x ++ ", " ++ fmt6 y ++ ");", (x, y))) ∧
    (∀ (tail : List Char) (pt : ℚ × ℚ) (x y : ℚ),
      numsOf (trim tail) = some [x, y] →
      Command.fromStr ('L' :: tail) pt = Res.ok ⟨'L', [(x, y)]⟩ ∧
      Command.toStr ⟨'L', [(x, y)]⟩ pt =
        some ("ctx.line_to(" ++ fmt6 x ++ ", " ++ fmt6 y ++ ");", (x, y))) ∧
    (∀ (tail : List Char) (pt : ℚ × ℚ) (x1 y1 x2 y2 x3 y3 : ℚ),
      numsOf (trim tail) = some [x1, y1, x2, y2, x3, y3] →
      Command.fromStr ('C' :: tail) pt = Res.ok ⟨'C', [(x1, y1), (x2, y2), (x3, y3)]⟩ ∧
      Command.toStr ⟨'C', [(x1, y1), (x2, y2), (x3, y3)]⟩ pt =
        some ("ctx.curve_to(" ++ fmt6 x1 ++ ", " ++ fmt6 y1 ++ ", " ++ fmt6 x2 ++ ", "
          ++ fmt6 y2 ++ ", " ++ fmt6 x3 ++ ", " ++ fmt6 y3 ++ ");", (x3, y3))) ∧
    (∀ q : ℚ, |fmt6val q - q| ≤ 1 / 2000000) := by
  refine ⟨fun tail pt x y h => ⟨?_, rfl⟩, fun tail pt x y h => ⟨?_, rfl⟩,
    fun tail pt x1 y1 x2 y2 x3 y3 h => ⟨?_, rfl⟩, fmt6val_close⟩
  · exact parse_pairs 'M' tail pt [x, y] [(x, y)] (by decide) (by decide) (by decide) h rfl
  · exact parse_pairs 'L' tail pt [x, y] [(x, y)] (by decide) (by decide) (by decide) h rfl
  · exact parse_pairs 'C' tail pt [x1, y1, x2, y2, x3, y3] [(x1, y1), (x2, y2), (x3, y3)]
      (by decide) (by decide) (by decide) h rfl

/-- Claim C8 witness: `"M 1,2"` parses to MoveTo `(1, 2)`. -/
theorem c8_witness :
    Command.fromStr ('M' :: " 1,2".data) (0, 0) = Res.ok ⟨'M', [(1, 2)]⟩ :=
  (c8_roundtrip.1 " 1,2".data (0, 0) 1 2 (by with_unfolding_all decide)).1

/-- The commands parsed from a prefix of tokens that all parse. -/
def okList : List (List Char) → ℚ × ℚ → List Command
  | [], _ => []
  | t :: ts, pt =>
    match Command.fromStr t pt with
    | Res.ok c => c :: okList ts c.context
    | _ => []

/-- The outcome of the first token (in pen-threading order) whose parse is
not `Ok`; `none` when every token parses. -/
def firstBad : List (List Char) → ℚ × ℚ → Option (Res Command)
  | [], _ => none
  | t :: ts, pt =>
    match Command.fromStr t pt with
    | Res.ok c => firstBad ts c.context
    | r => some r

/-- Token runs are determined by the first non-`Ok` token: its error (or
panic) is the result of the whole run, and if there is none the run returns
every parsed command. -/
theorem runTokens_firstBad (ts : List (List Char)) : ∀ pt : ℚ × ℚ,
    (firstBad ts pt = none → runTokens ts pt = Res.ok (okList ts pt)) ∧
    (∀ e, firstBad ts pt = some (Res.err e) → runTokens ts pt = Res.err e) ∧
    (firstBad ts pt = some Res.crash → runTokens ts pt = Res.crash) := by
  induction ts with
  | nil =>
    intro pt
    exact ⟨fun _ => rfl, fun e he => Option.noConfusion he, fun hc => Option.noConfusion hc⟩
  | cons t ts ih =>
    intro pt
    cases hc : Command.fromStr t pt with
    | ok c =>
      obtain ⟨i1, i2, i3⟩ := ih c.context
      refine ⟨fun h => ?_, fun e he => ?_, fun h => ?_⟩
      · have h2 : firstBad ts c.context = none := by simpa [firstBad, hc] using h
        simp [runTokens, okList, hc, i1 h2]
      · have h2 : firstBad ts c.context = some (Res.err e) := by simpa [firstBad, hc] using he
        simp [runTokens, hc, i2 e h2]
      · have h2 : firstBad ts c.context = some Res.crash := by simpa [firstBad, hc] using h
        simp [runTokens, hc, i3 h2]
    | err e0 =>
      refine ⟨fun h => ?_, fun e he => ?_, fun h => ?_⟩
      · simp [firstBad, hc] at h
      · have h2 : e0 = e := by simpa [firstBad, hc] using he
        subst h2
        simp [runTokens, hc]
      · simp [firstBad, hc] at h
    | crash =>
      refine ⟨fun h => ?_, fun e he => ?_, fun h => ?_⟩
      · simp [firstBad, hc] at h
      · simp [firstBad, hc] at he
      · simp [runTokens, hc]

/-- Claim C9 (amended): sequence parsing has no partial-success mode — the
first token whose parse does not succeed determines the whole result: a
decode error is returned as the error of the whole parse and no sequence is
produced, a panicking token (arity mismatch) panics the whole parse, and when
every token parses the full sequence (one command per token) is returned. -/
theorem c9_first_error (s : List Char) :
    (firstBad (tokenize s) (0, 0) = none →
      Commands.fromStr s = Res.ok ⟨okList (tokenize s) (0, 0)⟩) ∧
    (∀ e, firstBad (tokenize s) (0, 0) = some (Res.err e) →
      Commands.fromStr s = Res.err e) ∧
    (firstBad (tokenize s) (0, 0) = some Res.crash → Commands.fromStr s = Res.crash) ∧
    (∀ cs : Commands, Commands.fromStr s = Res.ok cs →
      cs.cmds.length = (tokenize s).length) := by
  obtain ⟨i1, i2, i3⟩ := runTokens_firstBad (tokenize s) (0, 0)
  refine ⟨fun h => ?_, fun e he => ?_, fun h => ?_, fun cs h => ?_⟩
  · rw [fromStr_eq, i1 h]
  · rw [fromStr_eq, i2 e he]
  · rw [fromStr_eq, i3 h]
  · exact (runTokens_ok_spec (tokenize s) (0, 0) cs.cmds (fromStr_ok_runTokens s cs h)).1

/-- Claim C9, counterexample: when a token fails by panicking (odd numeric
count in `"L 3,4 5"`), the sequence parse panics as well — it does not
return any error result, contrary to the claim that every failing token
yields the token's error. -/
theorem c9_counterexample :
    Commands.fromStr "M 1,2 L 3,4 5".data = Res.crash ∧
    (Commands.fromStr "M 1,2 L 3,4 5".data).isErr = false ∧
    (Commands.fromStr "M 1,2 L 3,4 5".data).isOk = false := by decide

/-- Claim C9 witness: a numeric decode failure in the only token is returned
as the error of the whole sequence parse. -/
theorem c9_witness :
    Commands.fromStr "M 1,x".data = Res.err "invalid float literal" :=
  (c9_first_error "M 1,x".data).2.1 "invalid float literal" (by decide)

end Empire
